import Mathlib

/-!
Verification of the lens library: a shallow embedding of the lens algebra
(`basic-lens.ts`), the dynamic traversal layer and value materialization layer
(`proxy-lens.ts`, `proxy.ts`), and the store snapshot logic
(`use-sync-external-store-with-lens.ts`), together with proofs of the
specified properties.
-/

set_option autoImplicit false

universe u v w

namespace ReactLenses

/-! ## The JavaScript value model

Dynamic JS values, as focused by the lenses: `null`, `undefined`, numbers,
strings, booleans, arrays and plain objects (association lists of own keys in
insertion order, mirroring JS property order for string keys).
-/

/-- A JS property key: a string key (object property) or a numeric index
(array element). Typed usage in the source never mixes the two kinds on one
container. -/
inductive JSKey where
  | str (s : String)
  | idx (n : Nat)
deriving DecidableEq, Repr

/-- A dynamic JS value. Objects are association lists of own enumerable keys
in insertion order. -/
inductive JSVal where
  | null
  | undefined
  | num (n : Int)
  | strv (s : String)
  | boolv (b : Bool)
  | arr (xs : List JSVal)
  | obj (fields : List (String × JSVal))
deriving Repr

/-- First-match association-list lookup, the semantics of reading an own
property of a JS object. -/
def lookupKey : List (String × JSVal) → String → Option JSVal
  | [], _ => none
  | (k', v) :: rest, k => if k' = k then some v else lookupKey rest k

/-- JS property assignment on an object's own keys: an existing key keeps its
insertion-order slot and gets the new value; a fresh key is appended at the
end, exactly as JS property creation does. -/
def updateAssoc : List (String × JSVal) → String → JSVal → List (String × JSVal)
  | [], k, v => [(k, v)]
  | (k', v') :: rest, k, v =>
      if k' = k then (k, v) :: rest else (k', v') :: updateAssoc rest k v

/-- JS member read `target[key]`: object string key looks up the own
property, array numeric index reads the element; a missing key or a read on a
non-container yields `undefined`. (Reads on `null`, which throw in JS, do not
occur in the typed usage the claims quantify over.) -/
def jsGet : JSVal → JSKey → JSVal
  | .obj fields, .str k => (lookupKey fields k).getD .undefined
  | .arr xs, .idx i => xs.getD i .undefined
  | _, _ => .undefined

/-- JS member assignment `target[key] = v`, modelled functionally: object
string keys via `updateAssoc`, array indices via in-range `List.set`
(assignment past the end of an array, which would create holes, is outside
the typed usage the claims quantify over); assignment on a non-container
leaves the value unchanged. -/
def jsSet : JSVal → JSKey → JSVal → JSVal
  | .obj fields, .str k, v => .obj (updateAssoc fields k v)
  | .arr xs, .idx i, v => .arr (xs.set i v)
  | target, _, _ => target

/-- Modelled from the spec: `shallow-copy.ts` is not under `src/`. Spec 4.1:
the setter "performs a shallow copy of the container (object: new object with
same own keys; array: new array with same elements)". In a pure embedding a
shallow copy is the structurally identical value; the freshness of the copy
is captured by `jsSet` being functional (the original is never mutated). -/
def shallowCopy : JSVal → JSVal
  | .obj fields => .obj fields
  | .arr xs => .arr xs
  | v => v

/-- `state ?? fallback`: JS nullish test, true exactly on `null` and
`undefined`. -/
def isNullish : JSVal → Bool
  | .null => true
  | .undefined => true
  | _ => false

/-! ## The lens algebra (`basic-lens.ts`) -/

/-- `BasicLens<S, A>`: a pure getter/setter pair. -/
structure BasicLens (S : Type u) (A : Type v) where
  get : S → A
  set : S → A → S

/-- The identity lens returned by `createBasicLens` (`basic-lens.ts` lines
8-17): `get` returns the state, `set` returns the new value. -/
def basicLens {S : Type u} : BasicLens S S :=
  { get := fun state => state
    set := fun _ value => value }

/-- `refine(lens, get, set)` (`basic-lens.ts` lines 19-39): post-composes an
extractor/updater pair onto an existing lens; the updater receives the
parent's current focus value. -/
def refine {S : Type u} {A : Type v} {B : Type w}
    (lens : BasicLens S A) (get : A → B) (set : A → B → A) : BasicLens S B :=
  { get := fun state => get (lens.get state)
    set := fun state value => lens.set state (set (lens.get state) value) }

/-- `prop(sa, key)` (`basic-lens.ts` lines 41-52): attribute access, with a
setter that shallow-copies the focused container and overwrites only `key`.
The focus type is the dynamic JS value model. -/
def prop {S : Type u} (sa : BasicLens S JSVal) (key : JSKey) : BasicLens S JSVal :=
  refine sa
    (fun state => jsGet state key)
    (fun prev next => jsSet (shallowCopy prev) key next)

/-- `compose(sa, ab)` (`basic-lens.ts` lines 54-56). -/
def compose {S : Type u} {A : Type v} {B : Type w}
    (sa : BasicLens S A) (ab : BasicLens A B) : BasicLens S B :=
  refine sa ab.get ab.set

/-- `coalesce(lens, fallback)` (`basic-lens.ts` lines 58-68): reads map a
nullish focus to `fallback`; writes pass through unchanged. -/
def coalesce {S : Type u} (lens : BasicLens S JSVal) (fallback : JSVal) : BasicLens S JSVal :=
  compose lens
    { get := fun state => if isNullish state then fallback else state
      set := fun _ value => value }

/-- The three lens laws (spec section 3). -/
structure LawfulLens {S : Type u} {A : Type v} (l : BasicLens S A) : Prop where
  get_set : ∀ s a, l.get (l.set s a) = a
  set_get : ∀ s, l.set s (l.get s) = s
  set_set : ∀ s a₁ a₂, l.set (l.set s a₁) a₂ = l.set s a₂

theorem basicLens_lawful {S : Type u} : LawfulLens (basicLens (S := S)) :=
  ⟨fun _ _ => rfl, fun _ => rfl, fun _ _ _ => rfl⟩

/-! ### Association-list lemmas backing the `prop` laws -/

theorem lookupKey_updateAssoc_self (fields : List (String × JSVal)) (k : String) (v : JSVal) :
    lookupKey (updateAssoc fields k v) k = some v := by
  induction fields with
  | nil => simp [updateAssoc, lookupKey]
  | cons hd tl ih =>
      obtain ⟨k₁, v₁⟩ := hd
      by_cases h : k₁ = k
      · simp [updateAssoc, lookupKey, h]
      · simp [updateAssoc, lookupKey, h, ih]

theorem lookupKey_updateAssoc_ne (fields : List (String × JSVal)) (k k' : String) (v : JSVal)
    (hne : k ≠ k') :
    lookupKey (updateAssoc fields k v) k' = lookupKey fields k' := by
  induction fields with
  | nil => simp [updateAssoc, lookupKey, hne]
  | cons hd tl ih =>
      obtain ⟨k₁, v₁⟩ := hd
      by_cases h : k₁ = k
      · simp [updateAssoc, lookupKey, h, hne]
      · simp [updateAssoc, lookupKey, h, ih]

theorem updateAssoc_lookup_self (fields : List (String × JSVal)) (k : String) (v : JSVal)
    (h : lookupKey fields k = some v) :
    updateAssoc fields k v = fields := by
  induction fields with
  | nil => simp [lookupKey] at h
  | cons hd tl ih =>
      obtain ⟨k₁, v₁⟩ := hd
      by_cases hk : k₁ = k
      · simp [lookupKey, hk] at h
        simp [updateAssoc, hk, h]
      · simp [lookupKey, hk] at h
        simp [updateAssoc, hk, ih h]

theorem updateAssoc_updateAssoc (fields : List (String × JSVal)) (k : String) (v₁ v₂ : JSVal) :
    updateAssoc (updateAssoc fields k v₁) k v₂ = updateAssoc fields k v₂ := by
  induction fields with
  | nil => simp [updateAssoc]
  | cons hd tl ih =>
      obtain ⟨k₁, w₁⟩ := hd
      by_cases h : k₁ = k
      · simp [updateAssoc, h]
      · simp [updateAssoc, h, ih]

theorem list_set_getD_self {α : Type u} (d : α) :
    ∀ (l : List α) (n : Nat), n < l.length → l.set n (l.getD n d) = l
  | [], n, h => by simp at h
  | x :: xs, 0, _ => by simp [List.getD]
  | x :: xs, n + 1, h => by
      simp only [List.getD_cons_succ, List.set_cons_succ, List.cons.injEq, true_and]
      exact list_set_getD_self d xs n (by simpa using h)

theorem list_getD_set_self {α : Type u} (d a : α) (l : List α) (n : Nat) (h : n < l.length) :
    (l.set n a).getD n d = a := by
  rw [List.getD_eq_getElem?_getD, List.getElem?_set_eq_of_lt a h]
  rfl

theorem list_getD_set_ne {α : Type u} (d a : α) (l : List α) (n m : Nat) (h : n ≠ m) :
    (l.set n a).getD m d = l.getD m d := by
  rw [List.getD_eq_getElem?_getD, List.getElem?_set_ne h, ← List.getD_eq_getElem?_getD]

/-! ### Read-after-write behaviour of `jsSet` on containers -/

theorem jsGet_jsSet_self_obj (fields : List (String × JSVal)) (k : String) (a : JSVal) :
    jsGet (jsSet (.obj fields) (.str k) a) (.str k) = a := by
  simp [jsSet, jsGet, lookupKey_updateAssoc_self]

theorem jsGet_jsSet_self_arr (xs : List JSVal) (i : Nat) (a : JSVal) (h : i < xs.length) :
    jsGet (jsSet (.arr xs) (.idx i) a) (.idx i) = a := by
  show (xs.set i a).getD i .undefined = a
  exact list_getD_set_self _ _ _ _ h

theorem jsGet_jsSet_ne_obj (fields : List (String × JSVal)) (k₁ k₂ : String) (a : JSVal)
    (h : k₁ ≠ k₂) :
    jsGet (jsSet (.obj fields) (.str k₁) a) (.str k₂) = jsGet (.obj fields) (.str k₂) := by
  simp [jsSet, jsGet, lookupKey_updateAssoc_ne _ _ _ _ h]

theorem jsGet_jsSet_ne_arr (xs : List JSVal) (i₁ i₂ : Nat) (a : JSVal) (h : i₁ ≠ i₂) :
    jsGet (jsSet (.arr xs) (.idx i₁) a) (.idx i₂) = jsGet (.arr xs) (.idx i₂) := by
  show (xs.set i₁ a).getD i₂ .undefined = xs.getD i₂ .undefined
  exact list_getD_set_ne _ _ _ _ _ h

theorem jsSet_jsGet_self_obj (fields : List (String × JSVal)) (k : String) (v : JSVal)
    (h : lookupKey fields k = some v) :
    jsSet (.obj fields) (.str k) (jsGet (.obj fields) (.str k)) = .obj fields := by
  simp [jsSet, jsGet, h, updateAssoc_lookup_self _ _ _ h]

theorem jsSet_jsGet_self_arr (xs : List JSVal) (i : Nat) (h : i < xs.length) :
    jsSet (.arr xs) (.idx i) (jsGet (.arr xs) (.idx i)) = .arr xs := by
  show JSVal.arr (xs.set i (xs.getD i .undefined)) = .arr xs
  rw [list_set_getD_self _ _ _ h]

theorem jsSet_jsSet_obj (fields : List (String × JSVal)) (k : String) (a₁ a₂ : JSVal) :
    jsSet (jsSet (.obj fields) (.str k) a₁) (.str k) a₂ = jsSet (.obj fields) (.str k) a₂ := by
  simp [jsSet, updateAssoc_updateAssoc]

theorem jsSet_jsSet_arr (xs : List JSVal) (i : Nat) (a₁ a₂ : JSVal) :
    jsSet (jsSet (.arr xs) (.idx i) a₁) (.idx i) a₂ = jsSet (.arr xs) (.idx i) a₂ := by
  simp [jsSet, List.set_set]

/-! ### Lens laws for the combinators -/

theorem compose_lawful {S A B : Type u} (sa : BasicLens S A) (ab : BasicLens A B)
    (hsa : LawfulLens sa) (hab : LawfulLens ab) : LawfulLens (compose sa ab) := by
  refine ⟨?_, ?_, ?_⟩
  · intro s a
    simp [compose, refine, hsa.get_set, hab.get_set]
  · intro s
    simp [compose, refine, hab.set_get, hsa.set_get]
  · intro s a₁ a₂
    simp [compose, refine, hsa.get_set, hab.set_set, hsa.set_set]

theorem prop_get_set_obj {S : Type u} (sa : BasicLens S JSVal) (hsa : LawfulLens sa)
    (s : S) (fields : List (String × JSVal)) (k : String) (a : JSVal)
    (hf : sa.get s = .obj fields) :
    (prop sa (.str k)).get ((prop sa (.str k)).set s a) = a := by
  simp [prop, refine, hsa.get_set, hf, shallowCopy, jsGet_jsSet_self_obj]

theorem prop_set_get_obj {S : Type u} (sa : BasicLens S JSVal) (hsa : LawfulLens sa)
    (s : S) (fields : List (String × JSVal)) (k : String) (v : JSVal)
    (hf : sa.get s = .obj fields) (hk : lookupKey fields k = some v) :
    (prop sa (.str k)).set s ((prop sa (.str k)).get s) = s := by
  have h1 : (prop sa (.str k)).set s ((prop sa (.str k)).get s) = sa.set s (.obj fields) := by
    simp [prop, refine, hf, shallowCopy, jsSet_jsGet_self_obj _ _ _ hk]
  rw [h1, ← hf, hsa.set_get]

theorem prop_set_set_obj {S : Type u} (sa : BasicLens S JSVal) (hsa : LawfulLens sa)
    (s : S) (fields : List (String × JSVal)) (k : String) (a₁ a₂ : JSVal)
    (hf : sa.get s = .obj fields) :
    (prop sa (.str k)).set ((prop sa (.str k)).set s a₁) a₂ = (prop sa (.str k)).set s a₂ := by
  simp [prop, refine, hsa.get_set, hf, shallowCopy, jsSet, updateAssoc_updateAssoc,
    hsa.set_set]

theorem prop_get_set_arr {S : Type u} (sa : BasicLens S JSVal) (hsa : LawfulLens sa)
    (s : S) (xs : List JSVal) (i : Nat) (a : JSVal)
    (hf : sa.get s = .arr xs) (hi : i < xs.length) :
    (prop sa (.idx i)).get ((prop sa (.idx i)).set s a) = a := by
  simp [prop, refine, hsa.get_set, hf, shallowCopy, jsGet_jsSet_self_arr _ _ _ hi]

theorem prop_set_get_arr {S : Type u} (sa : BasicLens S JSVal) (hsa : LawfulLens sa)
    (s : S) (xs : List JSVal) (i : Nat)
    (hf : sa.get s = .arr xs) (hi : i < xs.length) :
    (prop sa (.idx i)).set s ((prop sa (.idx i)).get s) = s := by
  have h1 : (prop sa (.idx i)).set s ((prop sa (.idx i)).get s) = sa.set s (.arr xs) := by
    simp only [prop, refine, hf, shallowCopy]
    rw [jsSet_jsGet_self_arr _ _ hi]
  rw [h1, ← hf, hsa.set_get]

theorem prop_set_set_arr {S : Type u} (sa : BasicLens S JSVal) (hsa : LawfulLens sa)
    (s : S) (xs : List JSVal) (i : Nat) (a₁ a₂ : JSVal)
    (hf : sa.get s = .arr xs) :
    (prop sa (.idx i)).set ((prop sa (.idx i)).set s a₁) a₂ = (prop sa (.idx i)).set s a₂ := by
  simp [prop, refine, hsa.get_set, hf, shallowCopy, jsSet, List.set_set, hsa.set_set]

theorem coalesce_get_set {S : Type u} (lens : BasicLens S JSVal) (hl : LawfulLens lens)
    (fallback : JSVal) (s : S) (a : JSVal) (ha : isNullish a = false) :
    (coalesce lens fallback).get ((coalesce lens fallback).set s a) = a := by
  simp [coalesce, compose, refine, hl.get_set, ha]

theorem coalesce_set_get {S : Type u} (lens : BasicLens S JSVal) (hl : LawfulLens lens)
    (fallback : JSVal) (s : S) (hs : isNullish (lens.get s) = false) :
    (coalesce lens fallback).set s ((coalesce lens fallback).get s) = s := by
  simp [coalesce, compose, refine, hs, hl.set_get]

theorem coalesce_set_set {S : Type u} (lens : BasicLens S JSVal) (hl : LawfulLens lens)
    (fallback : JSVal) (s : S) (a₁ a₂ : JSVal) :
    (coalesce lens fallback).set ((coalesce lens fallback).set s a₁) a₂
      = (coalesce lens fallback).set s a₂ := by
  simp [coalesce, compose, refine, hl.set_set]

/-! ## Claim C1: the lens laws for `prop`, `compose`, `coalesce` -/

/-- C1, counterexample: the claim asserts the three lens laws hold for
`coalesce(lens, fallback)` "including on states whose current focus value is
absent (null or undefined)". It is false: build `coalesce` over the lawful
identity lens with fallback `0`; on the state `null` (an absent focus), the
law `set(s, get(s)) == s` fails — `get` returns the fallback `0` and `set`
writes it back, turning the state into `0 ≠ null`. -/
theorem C1_coalesce_law_counterexample :
    LawfulLens (basicLens (S := JSVal))
    ∧ (coalesce (basicLens (S := JSVal)) (.num 0)).set .null
        ((coalesce (basicLens (S := JSVal)) (.num 0)).get .null) = .num 0
    ∧ JSVal.num 0 ≠ JSVal.null := by
  refine ⟨basicLens_lawful, rfl, fun h => JSVal.noConfusion h⟩

/-- C1 (amended): for component lenses satisfying the lens laws, `compose`
preserves all three laws; `prop` satisfies them on container-focused states
(get-set on any object key and on in-range array indices, set-get when the
key/index is present, set-set unconditionally); `coalesce` satisfies get-set
for non-nullish written values and set-set unconditionally, but set-get only
on states whose current focus is non-nullish (on an absent focus it replaces
the focus with the fallback). -/
theorem C1_lens_laws :
    (∀ (S A B : Type u) (sa : BasicLens S A) (ab : BasicLens A B),
        LawfulLens sa → LawfulLens ab → LawfulLens (compose sa ab))
    ∧ (∀ (S : Type u) (sa : BasicLens S JSVal), LawfulLens sa →
        ∀ (s : S) (fields : List (String × JSVal)) (k : String),
          sa.get s = .obj fields →
            (∀ a, (prop sa (.str k)).get ((prop sa (.str k)).set s a) = a)
            ∧ (∀ v, lookupKey fields k = some v →
                (prop sa (.str k)).set s ((prop sa (.str k)).get s) = s)
            ∧ (∀ a₁ a₂, (prop sa (.str k)).set ((prop sa (.str k)).set s a₁) a₂
                = (prop sa (.str k)).set s a₂))
    ∧ (∀ (S : Type u) (sa : BasicLens S JSVal), LawfulLens sa →
        ∀ (s : S) (xs : List JSVal) (i : Nat),
          sa.get s = .arr xs →
            (i < xs.length → ∀ a, (prop sa (.idx i)).get ((prop sa (.idx i)).set s a) = a)
            ∧ (i < xs.length → (prop sa (.idx i)).set s ((prop sa (.idx i)).get s) = s)
            ∧ (∀ a₁ a₂, (prop sa (.idx i)).set ((prop sa (.idx i)).set s a₁) a₂
                = (prop sa (.idx i)).set s a₂))
    ∧ (∀ (S : Type u) (lens : BasicLens S JSVal) (fallback : JSVal), LawfulLens lens →
        (∀ (s : S) (a : JSVal), isNullish a = false →
            (coalesce lens fallback).get ((coalesce lens fallback).set s a) = a)
        ∧ (∀ s : S, isNullish (lens.get s) = false →
            (coalesce lens fallback).set s ((coalesce lens fallback).get s) = s)
        ∧ (∀ (s : S) (a₁ a₂ : JSVal),
            (coalesce lens fallback).set ((coalesce lens fallback).set s a₁) a₂
              = (coalesce lens fallback).set s a₂)) := by
  refine ⟨fun S A B sa ab hsa hab => compose_lawful sa ab hsa hab,
    fun S sa hsa s fields k hf => ⟨fun a => prop_get_set_obj sa hsa s fields k a hf,
      fun v hv => prop_set_get_obj sa hsa s fields k v hf hv,
      fun a₁ a₂ => prop_set_set_obj sa hsa s fields k a₁ a₂ hf⟩,
    fun S sa hsa s xs i hf => ⟨fun hi a => prop_get_set_arr sa hsa s xs i a hf hi,
      fun hi => prop_set_get_arr sa hsa s xs i hf hi,
      fun a₁ a₂ => prop_set_set_arr sa hsa s xs i a₁ a₂ hf⟩,
    fun S lens fallback hl => ⟨fun s a ha => coalesce_get_set lens hl fallback s a ha,
      fun s hs => coalesce_set_get lens hl fallback s hs,
      fun s a₁ a₂ => coalesce_set_set lens hl fallback s a₁ a₂⟩⟩

/-- C1, witness: the amended laws evaluated at concrete inputs — set-get for
`prop` at key `"a"` of `{a: 1, b: 2}` through the identity root lens, and
set-get for `coalesce` on the non-nullish state `5`. -/
theorem C1_lens_laws_witness :
    (prop (basicLens (S := JSVal)) (.str "a")).set (.obj [("a", .num 1), ("b", .num 2)])
        ((prop (basicLens (S := JSVal)) (.str "a")).get (.obj [("a", .num 1), ("b", .num 2)]))
      = .obj [("a", .num 1), ("b", .num 2)]
    ∧ (coalesce (basicLens (S := JSVal)) (.num 0)).set (.num 5)
        ((coalesce (basicLens (S := JSVal)) (.num 0)).get (.num 5)) = .num 5 := by
  constructor
  · exact ((C1_lens_laws.2.1 JSVal basicLens basicLens_lawful
      (.obj [("a", .num 1), ("b", .num 2)]) [("a", .num 1), ("b", .num 2)] "a" rfl).2.1
        (.num 1) (by simp [lookupKey]))
  · exact ((C1_lens_laws.2.2.2 JSVal basicLens (.num 0) basicLens_lawful).2.1
      (.num 5) rfl)

/-! ## Claim C2: structural sharing of siblings under `prop` writes -/

/-- C2: writing through `prop(lens, k₁)` leaves the sibling entry at any
other key `k₂` of the focused container unchanged — the setter
shallow-copies the container and overwrites only `k₁` (stated for both
object fields and array elements; in the pure embedding, reference identity
of the untouched sibling is its identity as a subterm). -/
theorem C2_sibling_sharing {S : Type u} (sa : BasicLens S JSVal) (hsa : LawfulLens sa)
    (s : S) (v : JSVal) :
    (∀ (fields : List (String × JSVal)) (k₁ k₂ : String), sa.get s = .obj fields → k₁ ≠ k₂ →
        jsGet (sa.get ((prop sa (.str k₁)).set s v)) (.str k₂) = jsGet (sa.get s) (.str k₂))
    ∧ (∀ (xs : List JSVal) (i₁ i₂ : Nat), sa.get s = .arr xs → i₁ ≠ i₂ →
        jsGet (sa.get ((prop sa (.idx i₁)).set s v)) (.idx i₂) = jsGet (sa.get s) (.idx i₂)) := by
  constructor
  · intro fields k₁ k₂ hf hne
    simp only [prop, refine, hsa.get_set, hf, shallowCopy]
    exact jsGet_jsSet_ne_obj fields k₁ k₂ v hne
  · intro xs i₁ i₂ hf hne
    simp only [prop, refine, hsa.get_set, hf, shallowCopy]
    exact jsGet_jsSet_ne_arr xs i₁ i₂ v hne

/-- C2, witness: writing `9` at key `"a"` of `{a: 1, b: 2}` through the
identity root lens leaves the sibling entry `"b"` unchanged. -/
theorem C2_sibling_sharing_witness :
    jsGet ((prop (basicLens (S := JSVal)) (.str "a")).set (.obj [("a", .num 1), ("b", .num 2)])
        (.num 9)) (.str "b")
      = jsGet (JSVal.obj [("a", .num 1), ("b", .num 2)]) (.str "b") := by
  exact (C2_sibling_sharing basicLens basicLens_lawful
    (.obj [("a", .num 1), ("b", .num 2)]) (.num 9)).1
    [("a", .num 1), ("b", .num 2)] "a" "b" rfl (by simp)

/-! ## The dynamic traversal layer (`proxy-lens.ts`)

Each lens node owns a memo table `cache` mapping child key to child node
(`proxy-lens.ts` lines 205-206, 244-250): on first access of `key` the child
is built with `focusProp` and stored; afterwards it is returned from the
cache and never evicted. The heap of proxy nodes is embedded as an arena:
entry `i` is node `i`, recording its parent node and the key under which it
was memoized; the per-node cache is the set of arena entries pointing at
that parent. Node `0` is the root made by `initProxyLens` (parent `none`).
-/

structure NodeArena where
  nodes : List (Option Nat × JSKey)
deriving DecidableEq, Repr

/-- The arena holding only the root lens node. -/
def rootArena : NodeArena := ⟨[(none, .str "")]⟩

/-- First-match scan of the arena for the memoized child of node `p` under
key `k`, reporting its node id (the scan offset starts at `i`). -/
def findChildFrom (p : Nat) (k : JSKey) : List (Option Nat × JSKey) → Nat → Option Nat
  | [], _ => none
  | e :: rest, i => if e = (some p, k) then some i else findChildFrom p k rest (i + 1)

/-- The cache lookup `cache[key]` of the `get` trap. -/
def findChild (a : NodeArena) (p : Nat) (k : JSKey) : Option Nat :=
  findChildFrom p k a.nodes 0

/-- The `get` trap for a data key (`proxy-lens.ts` lines 244-250): if the
child node for `key` is not yet cached it is built and memoized; the cached
child is returned. -/
def accessChild (a : NodeArena) (p : Nat) (k : JSKey) : NodeArena × Nat :=
  match findChild a p k with
  | some c => (a, c)
  | none => (⟨a.nodes ++ [(some p, k)]⟩, a.nodes.length)

/-- Observable operations interleaved between child reads: another member
access somewhere in the node graph, a `use()` call (reads the store and
materializes a view; it touches no node cache), or a store update (replaces
the snapshot; it touches no node cache). -/
inductive LensOp where
  | access (p : Nat) (k : JSKey)
  | useCall
  | storeUpdate

def applyOp (a : NodeArena) : LensOp → NodeArena
  | .access p k => (accessChild a p k).1
  | .useCall => a
  | .storeUpdate => a

def runOps (a : NodeArena) : List LensOp → NodeArena
  | [] => a
  | op :: ops => runOps (applyOp a op) ops

theorem findChildFrom_append_some (p : Nat) (k : JSKey) (l l' : List (Option Nat × JSKey))
    (i c : Nat) (h : findChildFrom p k l i = some c) :
    findChildFrom p k (l ++ l') i = some c := by
  induction l generalizing i with
  | nil => simp [findChildFrom] at h
  | cons e rest ih =>
      by_cases he : e = (some p, k)
      · simp [findChildFrom, he] at h ⊢
        exact h
      · simp [findChildFrom, he] at h ⊢
        exact ih _ h

theorem findChildFrom_append_new (p : Nat) (k : JSKey) (l : List (Option Nat × JSKey))
    (i : Nat) (h : findChildFrom p k l i = none) :
    findChildFrom p k (l ++ [(some p, k)]) i = some (i + l.length) := by
  induction l generalizing i with
  | nil => simp [findChildFrom]
  | cons e rest ih =>
      by_cases he : e = (some p, k)
      · simp [findChildFrom, he] at h
      · simp [findChildFrom, he] at h ⊢
        rw [ih _ h]
        congr 1
        omega

theorem accessChild_findChild (a : NodeArena) (p : Nat) (k : JSKey) :
    findChild (accessChild a p k).1 p k = some (accessChild a p k).2 := by
  unfold accessChild
  cases h : findChild a p k with
  | some c => simp [h]
  | none =>
      simp only [h]
      simpa [findChild] using findChildFrom_append_new p k a.nodes 0 h

theorem accessChild_of_found (a : NodeArena) (p : Nat) (k : JSKey) (c : Nat)
    (h : findChild a p k = some c) : accessChild a p k = (a, c) := by
  unfold accessChild
  rw [h]

theorem findChild_accessChild_mono (a : NodeArena) (p k p' k' : _) (c : Nat)
    (h : findChild a p k = some c) :
    findChild (accessChild a p' k').1 p k = some c := by
  unfold accessChild
  cases h' : findChild a p' k' with
  | some c' => simpa using h
  | none =>
      simp only
      exact findChildFrom_append_some p k a.nodes _ 0 c h

theorem findChild_runOps_mono (ops : List LensOp) (a : NodeArena) (p : Nat) (k : JSKey)
    (c : Nat) (h : findChild a p k = some c) :
    findChild (runOps a ops) p k = some c := by
  induction ops generalizing a with
  | nil => exact h
  | cons op rest ih =>
      apply ih
      cases op with
      | access p' k' => exact findChild_accessChild_mono a p k p' k' c h
      | useCall => exact h
      | storeUpdate => exact h

/-! ## Claim C3: lens-node identity is stable -/

/-- C3: reading member `k` of a lens node, with any interleaving of member
accesses, `use()` calls or store updates in between, returns the same child
node every time: once the first access has memoized child `c`, every later
access finds `c` in the cache and leaves the node graph unchanged. -/
theorem C3_child_identity_stable (a a₁ : NodeArena) (p : Nat) (k : JSKey) (c : Nat)
    (h : accessChild a p k = (a₁, c)) (ops : List LensOp) :
    accessChild (runOps a₁ ops) p k = (runOps a₁ ops, c) := by
  have hf : findChild a₁ p k = some c := by
    have := accessChild_findChild a p k
    rw [h] at this
    exact this
  exact accessChild_of_found _ _ _ _ (findChild_runOps_mono ops a₁ p k c hf)

/-- C3, witness: accessing key `"a"` on the root node memoizes node `1`;
after a `use()` call, a store update and an unrelated access, re-accessing
`"a"` returns node `1` again and leaves the graph unchanged. -/
theorem C3_child_identity_stable_witness :
    accessChild
        (runOps ⟨[(none, .str ""), (some 0, .str "a")]⟩
          [.useCall, .storeUpdate, .access 1 (.str "b")])
        0 (.str "a")
      = (runOps ⟨[(none, .str ""), (some 0, .str "a")]⟩
          [.useCall, .storeUpdate, .access 1 (.str "b")], 1) :=
  C3_child_identity_stable rootArena ⟨[(none, .str ""), (some 0, .str "a")]⟩ 0 (.str "a") 1
    (by decide) [.useCall, .storeUpdate, .access 1 (.str "b")]

/-! ## The value materialization layer (`proxy-lens.ts`, `valueTraps`) -/

/-- `isProxyable` (`proxy-lens.ts` line 79): views exist only over arrays
and plain objects. -/
def isProxyable : JSVal → Bool
  | .arr _ => true
  | .obj _ => true
  | _ => false

/-- A materialized value view: the wrapped snapshot sub-value together with
the lens node addressing it (the `{ data, lens }` target of `valueTraps`). -/
structure ViewNode where
  data : JSVal
  lensNode : Nat

/-- `toLens()` on a view (`valueTraps.get`, `proxy-lens.ts` lines 113-115,
234-237): returns the lens node captured in the view, verbatim. -/
def viewToLens (v : ViewNode) : Nat := v.lensNode

/-- Member traversal through views (`valueTraps.get`, lines 117-120): each
step reads `data[key]`, fetches or builds the memoized child lens node, and
materializes the next view; a primitive sub-value materializes as itself,
not as a view, so traversal yields `none` there. -/
def viewTraverse (a : NodeArena) (d : JSVal) (n : Nat) :
    List JSKey → NodeArena × Option ViewNode
  | [] => (a, if isProxyable d then some ⟨d, n⟩ else none)
  | k :: ks =>
      if isProxyable d then
        viewTraverse (accessChild a n k).1 (jsGet d k) (accessChild a n k).2 ks
      else (a, none)

/-- Pure member traversal on lens nodes (`root.a.b...`). -/
def nodeTraverse (a : NodeArena) (n : Nat) : List JSKey → NodeArena × Nat
  | [] => (a, n)
  | k :: ks => nodeTraverse (accessChild a n k).1 (accessChild a n k).2 ks

theorem findChild_viewTraverse_mono (path : List JSKey) (a : NodeArena) (d : JSVal)
    (n : Nat) (p : Nat) (k : JSKey) (c : Nat) (h : findChild a p k = some c) :
    findChild (viewTraverse a d n path).1 p k = some c := by
  induction path generalizing a d n with
  | nil => simpa [viewTraverse]
  | cons k' ks ih =>
      unfold viewTraverse
      by_cases hd : isProxyable d
      · simp only [hd, if_true]
        exact ih _ _ _ (findChild_accessChild_mono a p k n k' c h)
      · simpa [hd]

/-! ## Claim C4: a view's `toLens()` is the node reached by pure traversal -/

/-- C4: if materializing the snapshot against the root node and traversing
members along `path` yields a view `v`, then `toLens()` on `v` returns
exactly the node that pure member traversal from the same origin node along
`path` produces — and that traversal finds every node already memoized,
leaving the node graph unchanged. -/
theorem C4_toLens_is_traversal (path : List JSKey) (a a₁ : NodeArena) (d : JSVal)
    (n : Nat) (v : ViewNode) (h : viewTraverse a d n path = (a₁, some v)) :
    nodeTraverse a₁ n path = (a₁, viewToLens v) := by
  induction path generalizing a d n with
  | nil =>
      unfold viewTraverse at h
      by_cases hd : isProxyable d
      · simp [hd] at h
        obtain ⟨ha, hv⟩ := h
        subst ha
        simp [nodeTraverse, viewToLens, ← hv]
      · simp [hd] at h
  | cons k ks ih =>
      unfold viewTraverse at h
      by_cases hd : isProxyable d
      · simp only [hd, if_true] at h
        have hstep := ih _ _ _ h
        have hfind : findChild a₁ n k = some (accessChild a n k).2 := by
          have h0 := accessChild_findChild a n k
          have := findChild_viewTraverse_mono ks (accessChild a n k).1 (jsGet d k)
            (accessChild a n k).2 n k (accessChild a n k).2 h0
          rw [h] at this
          exact this
        unfold nodeTraverse
        rw [accessChild_of_found a₁ n k _ hfind]
        exact hstep
      · simp [hd] at h

/-- C4, witness: over the snapshot `{a: {b: 1}}`, materializing at the root
and traversing `.a` yields a view whose `toLens()` is node `1`, the node
pure traversal `root.a` reaches. -/
theorem C4_toLens_is_traversal_witness :
    nodeTraverse ⟨[(none, .str ""), (some 0, .str "a")]⟩ 0 [.str "a"]
      = (⟨[(none, .str ""), (some 0, .str "a")]⟩, 1) :=
  C4_toLens_is_traversal [.str "a"] rootArena ⟨[(none, .str ""), (some 0, .str "a")]⟩
    (.obj [("a", .obj [("b", .num 1)])]) 0 ⟨.obj [("b", .num 1)], 1⟩ rfl

/-! ## The value-view cache (`proxy-lens.ts` lines 187-202)

`valueCache` is a `WeakMap` keyed by the identity of the underlying snapshot
sub-value: `proxyValue(data, lens)` returns the cached view for `data` when
one exists and otherwise builds a view over `{ data, lens }` and stores it.
Object identities are embedded as abstract references (`Nat`); the refs
passed here stand for composite values (primitives are returned unwrapped
before the cache is consulted and never reach it). -/

/-- A cached view: the data reference it wraps and the lens node captured
when it was first built. -/
structure CachedView where
  dataRef : Nat
  lensNode : Nat
deriving DecidableEq, Repr

def cacheLookup : List (Nat × CachedView) → Nat → Option CachedView
  | [], _ => none
  | (d, v) :: rest, d' => if d = d' then some v else cacheLookup rest d'

structure ValueCache where
  entries : List (Nat × CachedView)
deriving DecidableEq, Repr

/-- `proxyValue(data, lens)` over the identity-keyed cache. -/
def proxyValue (c : ValueCache) (dataRef lensNode : Nat) : ValueCache × CachedView :=
  match cacheLookup c.entries dataRef with
  | some v => (c, v)
  | none => (⟨c.entries ++ [(dataRef, ⟨dataRef, lensNode⟩)]⟩, ⟨dataRef, lensNode⟩)

def runProxyValueCalls (c : ValueCache) : List (Nat × Nat) → ValueCache
  | [] => c
  | (d, n) :: rest => runProxyValueCalls (proxyValue c d n).1 rest

theorem cacheLookup_append_some (l l' : List (Nat × CachedView)) (d : Nat) (v : CachedView)
    (h : cacheLookup l d = some v) : cacheLookup (l ++ l') d = some v := by
  induction l with
  | nil => simp [cacheLookup] at h
  | cons e rest ih =>
      obtain ⟨d₁, v₁⟩ := e
      by_cases hd : d₁ = d
      · simp [cacheLookup, hd] at h ⊢
        exact h
      · simp [cacheLookup, hd] at h ⊢
        exact ih h

theorem cacheLookup_append_new (l : List (Nat × CachedView)) (d : Nat) (v : CachedView)
    (h : cacheLookup l d = none) : cacheLookup (l ++ [(d, v)]) d = some v := by
  induction l with
  | nil => simp [cacheLookup]
  | cons e rest ih =>
      obtain ⟨d₁, v₁⟩ := e
      by_cases hd : d₁ = d
      · simp [cacheLookup, hd] at h
      · simp [cacheLookup, hd] at h ⊢
        exact ih h

theorem cacheLookup_proxyValue_mono (c : ValueCache) (d : Nat) (v : CachedView)
    (d' n' : Nat) (h : cacheLookup c.entries d = some v) :
    cacheLookup (proxyValue c d' n').1.entries d = some v := by
  unfold proxyValue
  cases h' : cacheLookup c.entries d' with
  | some _ => simpa using h
  | none =>
      simp only
      exact cacheLookup_append_some c.entries _ d v h

theorem proxyValue_of_found (c : ValueCache) (d n : Nat) (v : CachedView)
    (h : cacheLookup c.entries d = some v) : proxyValue c d n = (c, v) := by
  unfold proxyValue
  rw [h]

theorem cacheLookup_runCalls_mono (calls : List (Nat × Nat)) (c : ValueCache) (d : Nat)
    (v : CachedView) (h : cacheLookup c.entries d = some v) :
    cacheLookup (runProxyValueCalls c calls).entries d = some v := by
  induction calls generalizing c with
  | nil => exact h
  | cons call rest ih =>
      obtain ⟨d', n'⟩ := call
      exact ih _ (cacheLookup_proxyValue_mono c d v d' n' h)

/-! ## Claim C9: the view cache is keyed solely by data identity -/

/-- C9: with no view cached yet for data value `d`, materializing `d`
against lens node `n₁` builds and caches the view `⟨d, n₁⟩`; after any
sequence of further `proxyValue` calls, materializing `d` against any other
lens node `n₂` returns that identical cached view unchanged — its
`toLens` target is still `n₁`, and the lens argument of the later call is
ignored. -/
theorem C9_value_cache_ignores_lens (c : ValueCache) (d n₁ n₂ : Nat)
    (calls : List (Nat × Nat)) (h : cacheLookup c.entries d = none) :
    (proxyValue c d n₁).2 = ⟨d, n₁⟩
    ∧ proxyValue (runProxyValueCalls (proxyValue c d n₁).1 calls) d n₂
        = (runProxyValueCalls (proxyValue c d n₁).1 calls, ⟨d, n₁⟩) := by
  have h1 : proxyValue c d n₁
      = (⟨c.entries ++ [(d, ⟨d, n₁⟩)]⟩, ⟨d, n₁⟩) := by
    unfold proxyValue
    rw [h]
  refine ⟨by rw [h1], ?_⟩
  have h2 : cacheLookup (proxyValue c d n₁).1.entries d = some ⟨d, n₁⟩ := by
    rw [h1]
    exact cacheLookup_append_new c.entries d ⟨d, n₁⟩ h
  have h3 := cacheLookup_runCalls_mono calls _ d ⟨d, n₁⟩ h2
  exact proxyValue_of_found _ _ _ _ h3

/-- C9, witness: an empty cache, data ref `0`, first lens node `1`, an
interleaved call for data ref `5`, then a second materialization of `0`
against lens node `2`: the first view `⟨0, 1⟩` is returned both times. -/
theorem C9_value_cache_ignores_lens_witness :
    (proxyValue ⟨[]⟩ 0 1).2 = ⟨0, 1⟩
    ∧ proxyValue (runProxyValueCalls (proxyValue ⟨[]⟩ 0 1).1 [(5, 7)]) 0 2
        = (runProxyValueCalls (proxyValue ⟨[]⟩ 0 1).1 [(5, 7)], ⟨0, 1⟩) :=
  C9_value_cache_ignores_lens ⟨[]⟩ 0 1 2 [(5, 7)] rfl

/-! ## The should-update evaluator

`should-update.ts` is not under `src/`; the evaluator is modelled from the
spec (sections 4.5 and 6). JS strict (in)equality `!==` compares object
references; in the pure embedding it is rendered as structural equality
(reference equality of immutable snapshots implies structural equality, and
`decide(x, x, true) === false` holds in both readings).
-/

mutual

/-- Structural equality of JS values, the embedding of `!==`'s negation. -/
def jsEq : JSVal → JSVal → Bool
  | .null, .null => true
  | .undefined, .undefined => true
  | .num a, .num b => a == b
  | .strv a, .strv b => a == b
  | .boolv a, .boolv b => a == b
  | .arr xs, .arr ys => jsEqList xs ys
  | .obj fs, .obj gs => jsEqFields fs gs
  | _, _ => false

def jsEqList : List JSVal → List JSVal → Bool
  | [], [] => true
  | x :: xs, y :: ys => jsEq x y && jsEqList xs ys
  | _, _ => false

def jsEqFields : List (String × JSVal) → List (String × JSVal) → Bool
  | [], [] => true
  | (k₁, v₁) :: fs, (k₂, v₂) :: gs => k₁ == k₂ && jsEq v₁ v₂ && jsEqFields fs gs
  | _, _ => false

end

namespace ShouldUpdate

/-- Modelled from the spec: the should-update spec grammar (spec section 6):
`true | false | (prev,next)=>boolean | Array<key> | { [key]: ShouldUpdateSpec }`. -/
inductive Spec where
  | ofBool (b : Bool)
  | pred (f : JSVal → JSVal → Bool)
  | keys (ks : List JSKey)
  | mapping (m : List (JSKey × Spec))

/-- The length-change check for sequence-valued prev/next. -/
def lengthChanged : JSVal → JSVal → Bool
  | .arr ps, .arr ns => ps.length != ns.length
  | _, _ => false

/-- Modelled from the spec: `decide(prev, next, spec)` (spec section 4.5).
`true` → values differ; `false` → never; predicate → apply it; set of keys →
length change or some listed entry differs; keyed mapping → over a sequence,
the mapping is applied to every element (OR across elements) plus the
length-change check, and over a plain composite each listed key's sub-values
are compared with the nested spec (absent entries read as `undefined` and so
register as differences at the leaves). -/
def decide (prev next : JSVal) (spec : Spec) : Bool :=
  match spec with
  | .ofBool b => if b then !jsEq prev next else false
  | .pred f => f prev next
  | .keys ks =>
      lengthChanged prev next || ks.any fun k => !jsEq (jsGet prev k) (jsGet next k)
  | .mapping m =>
      match prev, next with
      | .arr ps, .arr ns =>
          (ps.length != ns.length)
          || ((ps.zip ns).attach.any fun pn => decide pn.1.1 pn.1.2 (.mapping m))
      | p, n =>
          m.attach.any fun ksub => decide (jsGet p ksub.1.1) (jsGet n ksub.1.1) ksub.1.2
  termination_by (sizeOf spec, sizeOf prev)
  decreasing_by
  · obtain ⟨⟨p, n⟩, hmem⟩ := pn
    apply Prod.Lex.right
    have h1 := List.sizeOf_lt_of_mem (List.of_mem_zip hmem).1
    simp only [JSVal.arr.sizeOf_spec]
    omega
  · obtain ⟨⟨k, sub⟩, hmem⟩ := ksub
    apply Prod.Lex.left
    have h1 := List.sizeOf_lt_of_mem hmem
    simp only [Prod.mk.sizeOf_spec] at h1
    simp only [Spec.mapping.sizeOf_spec]
    omega

end ShouldUpdate

/-- `shouldUpdateToFunction`, as used by `getSnapshot`
(`use-sync-external-store-with-lens.ts` line 32): the spec evaluated as a
binary predicate. -/
def shouldUpdateToFunction (spec : ShouldUpdate.Spec) : JSVal → JSVal → Bool :=
  fun prev next => ShouldUpdate.decide prev next spec

theorem decide_mapping_arr (ps ns : List JSVal) (m : List (JSKey × ShouldUpdate.Spec)) :
    ShouldUpdate.decide (.arr ps) (.arr ns) (.mapping m)
      = ((ps.length != ns.length)
          || ((ps.zip ns).attach.any fun pn =>
                ShouldUpdate.decide pn.1.1 pn.1.2 (.mapping m))) := by
  rw [ShouldUpdate.decide]

theorem decide_attach_any_zip (ps ns : List JSVal) (m : List (JSKey × ShouldUpdate.Spec)) :
    ((ps.zip ns).attach.any fun pn => ShouldUpdate.decide pn.1.1 pn.1.2 (.mapping m))
      = (ps.zip ns).any fun pn => ShouldUpdate.decide pn.1 pn.2 (.mapping m) := by
  cases hz : (ps.zip ns).any fun pn => ShouldUpdate.decide pn.1 pn.2 (.mapping m) with
  | true =>
      simp only [List.any_eq_true] at hz ⊢
      obtain ⟨pn, hmem, hd⟩ := hz
      exact ⟨⟨pn, hmem⟩, List.mem_attach _ _, hd⟩
  | false =>
      simp only [List.any_eq_false] at hz ⊢
      intro x _
      exact hz x.1 x.2

/-! ## Claim C7: keyed mappings over sequences -/

/-- C7: `decide` with a keyed-mapping spec on sequence-valued prev/next
applies the mapping to every element (logical OR across the paired
elements) and returns true whenever the lengths differ; in particular
`decide([{c:false}], [{c:false},{c:false}], {c:true})` is true by the
length change. -/
theorem C7_mapping_over_sequences :
    (∀ (ps ns : List JSVal) (m : List (JSKey × ShouldUpdate.Spec)),
        ps.length ≠ ns.length →
          ShouldUpdate.decide (.arr ps) (.arr ns) (.mapping m) = true)
    ∧ (∀ (ps ns : List JSVal) (m : List (JSKey × ShouldUpdate.Spec)),
        ps.length = ns.length →
          ShouldUpdate.decide (.arr ps) (.arr ns) (.mapping m)
            = (ps.zip ns).any fun pn => ShouldUpdate.decide pn.1 pn.2 (.mapping m))
    ∧ ShouldUpdate.decide (.arr [.obj [("c", .boolv false)]])
        (.arr [.obj [("c", .boolv false)], .obj [("c", .boolv false)]])
        (.mapping [(.str "c", .ofBool true)]) = true := by
  have ha : ∀ (ps ns : List JSVal) (m : List (JSKey × ShouldUpdate.Spec)),
      ps.length ≠ ns.length →
        ShouldUpdate.decide (.arr ps) (.arr ns) (.mapping m) = true := by
    intro ps ns m h
    rw [decide_mapping_arr]
    simp [bne_iff_ne, h]
  refine ⟨ha, ?_, ha _ _ _ (by simp)⟩
  intro ps ns m h
  rw [decide_mapping_arr, decide_attach_any_zip]
  simp [h]

/-- C7, witness: the length-difference clause applied at the empty sequence
against a one-element sequence under the empty mapping. -/
theorem C7_mapping_over_sequences_witness :
    ShouldUpdate.decide (.arr []) (.arr [.null]) (.mapping []) = true :=
  C7_mapping_over_sequences.1 [] [.null] [] (by simp)

/-! ## The store snapshot logic (`use-sync-external-store-with-lens.ts`) -/

/-- `getSnapshot` (`use-sync-external-store-with-lens.ts` lines 20-46):
read `next` through the lens from the store snapshot; on the first render
(`prev` is the `nothing` sentinel) take `next`; otherwise advance to `next`
exactly when the should-update decision allows, else keep `prev`. -/
def getSnapshot {S : Type u} {A : Type v} (lens : BasicLens S A)
    (shouldUpdateFn : A → A → Bool) (prev : Option A) (store : S) : A :=
  match prev with
  | none => lens.get store
  | some p => if shouldUpdateFn p (lens.get store) then lens.get store else p

/-- The render loop: each render runs `getSnapshot` against the current
store snapshot and then writes the returned state to `prevRef`
(`use-sync-external-store-with-lens.ts` line 56). -/
def useLensRenders {S : Type u} {A : Type v} (lens : BasicLens S A)
    (f : A → A → Bool) : Option A → List S → Option A
  | prev, [] => prev
  | prev, s :: ss => useLensRenders lens f (some (getSnapshot lens f prev s)) ss

theorem decide_false_spec (p n : JSVal) :
    shouldUpdateToFunction (.ofBool false) p n = false := by
  unfold shouldUpdateToFunction
  rw [ShouldUpdate.decide]
  simp

theorem useLensRenders_false_pinned {S : Type u} (lens : BasicLens S JSVal)
    (ss : List S) (p : JSVal) :
    useLensRenders lens (shouldUpdateToFunction (.ofBool false)) (some p) ss = some p := by
  induction ss with
  | nil => rfl
  | cons s rest ih =>
      unfold useLensRenders getSnapshot
      simpa [decide_false_spec] using ih

/-! ## Claim C5: the collapse operation's snapshot computation -/

/-- C5: the snapshot computation returns the freshly read `next` on its
first invocation (no previous value); on a later invocation it returns
`next` exactly when the should-update decision on `(prev, next)` is true
and otherwise the previously returned `prev`; and under the spec `false`
the returned value never advances past the first one, whatever store states
follow. -/
theorem C5_snapshot_advance :
    (∀ (S A : Type) (lens : BasicLens S A) (f : A → A → Bool) (s : S),
        getSnapshot lens f none s = lens.get s)
    ∧ (∀ (S A : Type) (lens : BasicLens S A) (f : A → A → Bool) (p : A) (s : S),
        getSnapshot lens f (some p) s = if f p (lens.get s) then lens.get s else p)
    ∧ (∀ (S : Type) (lens : BasicLens S JSVal) (s₀ : S) (ss : List S),
        useLensRenders lens (shouldUpdateToFunction (.ofBool false)) none (s₀ :: ss)
          = some (lens.get s₀)) := by
  refine ⟨fun S A lens f s => rfl, fun S A lens f p s => rfl, fun S lens s₀ ss => ?_⟩
  unfold useLensRenders getSnapshot
  exact useLensRenders_false_pinned lens ss (lens.get s₀)

/-! ## The display key (`proxy-lens.ts` lines 224-226) -/

/-- Modelled from the spec: `key-path-to-string.ts` is not under `src/`.
Spec section 4.3 specifies "a stable display key derived from the key-path";
the display string is a pure function of the key path (the concrete format
is immaterial to the claims). -/
def keyToString : JSKey → String
  | .str s => s
  | .idx n => toString n

/-- Modelled from the spec: the deterministic display string for a key
path. -/
def keyPathToString (path : List JSKey) : String :=
  "root" ++ String.join (path.map fun k => "." ++ keyToString k)

/-- The `$key` branch of the lens-node `get` trap (`proxy-lens.ts` lines
224-226): `$key ??= keyPathToString(focus.keyPath); return $key` — the memo
cell and the returned string, state-passing style. -/
def readDollarKey (memo : Option String) (path : List JSKey) : Option String × String :=
  match memo with
  | some s => (some s, s)
  | none => (some (keyPathToString path), keyPathToString path)

/-- The older revision's key minting (`proxy-lens.ts` older segment lines
399-400; `proxy.ts` lines 56-57): a module-level counter produces
`$$ProxyLens(<n>)`, independent of the key path. -/
def proxyLensKey (counter : Nat) : String × Nat :=
  (s!"$$ProxyLens({counter})", counter + 1)

/-- Creation of an older-revision lens node: it carries its key path and
mints its `$key` from the shared counter, returning the advanced counter. -/
def createOldNode (path : List JSKey) (counter : Nat) : (List JSKey × String) × Nat :=
  ((path, (proxyLensKey counter).1), (proxyLensKey counter).2)

/-! ## Claim C8: `$key` is a stable function of the key path -/

/-- C8, counterexample: in the older revision, `$key` is minted from a
module-level counter, so it is not a function of the key path — two root
nodes (both with the empty key path) created in sequence carry the equal
key path but distinct `$key` strings. -/
theorem C8_counter_key_counterexample :
    (createOldNode [] 0).1.1 = (createOldNode [] (createOldNode [] 0).2).1.1
    ∧ (createOldNode [] 0).1.2 ≠ (createOldNode [] (createOldNode [] 0).2).1.2 := by
  refine ⟨rfl, ?_⟩
  decide

/-- C8 (amended): in the current revision, reading `$key` on a node yields
`keyPathToString` of the node's key path — a deterministic function of the
key path alone — and a second read returns the memoized cell and the very
same string. (In the older revision the string is still stable across reads
of one node, but it is minted from a shared counter, not derived from the
key path.) -/
theorem C8_dollar_key_stable (path : List JSKey) :
    (readDollarKey none path).2 = keyPathToString path
    ∧ readDollarKey (readDollarKey none path).1 path
        = ((readDollarKey none path).1, (readDollarKey none path).2) :=
  ⟨rfl, rfl⟩

/-! ## The one-time copy warning (older-revision `proxy-lens.ts`)

The older revision of the traversal layer guards its
`getOwnPropertyDescriptor` warning with the module-level boolean
`showCopyLensWarning` (line 397): when the descriptor of an
already-memoized child key is read (lines 566-584), the warning is printed
only if the flag is still unset, and the flag is then set. The flag is
shared by every lens node of every root lens, so the reads of all nodes are
one interleaved sequence.
-/

/-- One `getOwnPropertyDescriptor` read against the shared flag: `cached`
says whether the requested key is in the node's child cache. Returns the new
flag and whether a warning was printed. -/
def descRead (flag : Bool) (cached : Bool) : Bool × Bool :=
  if cached then
    if flag then (flag, false) else (true, true)
  else (flag, false)

/-- Run a sequence of descriptor reads (across any nodes), counting the
warnings printed. -/
def runDescReads (flag : Bool) : List Bool → Bool × Nat
  | [] => (flag, 0)
  | c :: cs =>
      let step := descRead flag c
      let rest := runDescReads step.1 cs
      (rest.1, (if step.2 then 1 else 0) + rest.2)

theorem runDescReads_flag_set (reads : List Bool) :
    runDescReads true reads = (true, 0) := by
  induction reads with
  | nil => rfl
  | cons c cs ih => cases c <;> simp [runDescReads, descRead, ih]

/-! ## Claim C10: the copy warning fires at most once per module lifetime -/

/-- C10: over any interleaved sequence of descriptor reads of memoized child
keys — across all lens nodes of all root lenses, since the guard is one
module-level boolean — at most one warning is ever printed, and once the
flag is set (some node has warned) no read ever warns again. -/
theorem C10_copy_warning_once (reads : List Bool) :
    (runDescReads false reads).2 ≤ 1 ∧ (runDescReads true reads).2 = 0 := by
  refine ⟨?_, by simp [runDescReads_flag_set]⟩
  induction reads with
  | nil => simp [runDescReads]
  | cons c cs ih =>
      cases c with
      | false => simpa [runDescReads, descRead] using ih
      | true => simp [runDescReads, descRead, runDescReads_flag_set]

/-! ## Mutation trap dispatch (`proxy-lens.ts`, `proxy.ts`)

A JS `Proxy` forwards `set`/`deleteProperty` to the target when the handler
supplies no trap. The current revision installs throwing traps on both the
value views (`valueTraps`, `proxy-lens.ts` lines 179-184) and the lens
nodes (lines 308-313); the oldest revision's value views
(`maybeCreateProxyValue`, `proxy.ts` lines 82-97) install only a `get` trap
— its own `TODO: throw on delete or set methods` comments (lines 81 and
112) record the missing traps — so writes and deletes fall through to the
snapshot object and mutate it.
-/

structure MutationTraps (T : Type u) where
  setTrap : Option (T → JSKey → JSVal → Except String T)
  deleteTrap : Option (T → JSKey → Except String T)

/-- Dispatch a property write against a proxy: the installed trap, or the
default forward-to-target behaviour when none is installed. -/
def dispatchSet {T : Type u} (h : MutationTraps T) (defaultSet : T → JSKey → JSVal → T)
    (t : T) (k : JSKey) (v : JSVal) : Except String T :=
  match h.setTrap with
  | some f => f t k v
  | none => .ok (defaultSet t k v)

/-- Dispatch a property delete against a proxy. -/
def dispatchDelete {T : Type u} (h : MutationTraps T) (defaultDelete : T → JSKey → T)
    (t : T) (k : JSKey) : Except String T :=
  match h.deleteTrap with
  | some f => f t k
  | none => .ok (defaultDelete t k)

/-- First-match removal of an own key, the default `delete obj[k]`. -/
def removeKey : List (String × JSVal) → String → List (String × JSVal)
  | [], _ => []
  | (k', v) :: rest, k => if k' = k then rest else (k', v) :: removeKey rest k

/-- Default `delete target[key]` on a snapshot value. -/
def jsDelete : JSVal → JSKey → JSVal
  | .obj fields, .str k => .obj (removeKey fields k)
  | v, _ => v

/-- `valueTraps.set` / `valueTraps.deleteProperty` (`proxy-lens.ts` lines
179-184): both throw. -/
def valueTrapsMutation : MutationTraps JSVal :=
  { setTrap := some fun _ _ _ => .error "Cannot set property on ProxyValue"
    deleteTrap := some fun _ _ => .error "Cannot delete property on ProxyValue" }

/-- The lens-node `set` / `deleteProperty` traps (`proxy-lens.ts` lines
308-313): both throw; the proxy target is the empty object. -/
def lensTrapsMutation : MutationTraps Unit :=
  { setTrap := some fun _ _ _ => .error "Cannot set property on ProxyLens"
    deleteTrap := some fun _ _ => .error "Cannot delete property on ProxyLens" }

/-- `maybeCreateProxyValue` (`proxy.ts` lines 82-97): only a `get` trap is
installed; `set` and `deleteProperty` are absent despite the adjacent
`TODO: throw on delete or set methods` comments. -/
def oldValueTrapsMutation : MutationTraps JSVal :=
  { setTrap := none
    deleteTrap := none }

/-! ## Claim C6: writes and deletes on nodes and views throw -/

/-- C6: on the current revision's lens nodes and value views every property
write or delete throws synchronously (and, the dispatch being functional,
touches neither node nor data). But on the `proxy.ts` revision's value
views, which install no `set`/`deleteProperty` traps, a write falls through
to the underlying snapshot object and succeeds — `view.a = 2` over the
snapshot `{a: 1}` mutates it to `{a: 2}` with no error, and `delete view.a`
empties it — contradicting the claim (and the revision's own TODO note). -/
theorem C6_mutation_traps :
    (∀ (t : JSVal) (k : JSKey) (v : JSVal),
        dispatchSet valueTrapsMutation jsSet t k v
          = .error "Cannot set property on ProxyValue")
    ∧ (∀ (t : JSVal) (k : JSKey),
        dispatchDelete valueTrapsMutation jsDelete t k
          = .error "Cannot delete property on ProxyValue")
    ∧ (∀ (k : JSKey) (v : JSVal),
        dispatchSet lensTrapsMutation (fun t _ _ => t) () k v
          = .error "Cannot set property on ProxyLens")
    ∧ (∀ k : JSKey,
        dispatchDelete lensTrapsMutation (fun t _ => t) () k
          = .error "Cannot delete property on ProxyLens")
    ∧ dispatchSet oldValueTrapsMutation jsSet (.obj [("a", .num 1)]) (.str "a") (.num 2)
        = .ok (.obj [("a", .num 2)])
    ∧ dispatchDelete oldValueTrapsMutation jsDelete (.obj [("a", .num 1)]) (.str "a")
        = .ok (.obj []) := by
  refine ⟨fun t k v => rfl, fun t k => rfl, fun k v => rfl, fun k => rfl, ?_, ?_⟩
  · simp [dispatchSet, oldValueTrapsMutation, jsSet, updateAssoc]
  · simp [dispatchDelete, oldValueTrapsMutation, jsDelete, removeKey]

end ReactLenses
